import Mathlib

/-!
Shallow embedding of the race-card extraction pipeline of
`src/backend/src/services/ocr.service.ts` (class `OCRService`).

Strings are handled as `List Char`.  The JavaScript regular expressions of
the source are embedded as explicit matchers that reproduce the engine's
leftmost-match / greedy / lazy backtracking behaviour for the concrete
patterns appearing in the source; each matcher carries a comment citing the
pattern it embeds.  Machine numbers are `Nat` (all numbers produced by the
pipeline come from `parseInt` on digit strings) and the floating point
confidence scores are embedded as rationals (`0.9 ↦ 9/10`, …), which is
faithful for the equality comparisons the code performs (none).
-/

set_option maxRecDepth 8192

namespace Railbird

/-- JavaScript `\s` (ASCII part, which is all the pipeline can meet after
splitting the text on newlines): space, tab, newline, carriage return,
vertical tab, form feed. -/
def isWsChar (c : Char) : Bool :=
  c == ' ' || c == '\t' || c == '\n' || c == '\r' || c == '\x0b' || c == '\x0c'

/-- Character class `[A-Z\s']` under the `i` flag of the horse-entry pattern:
ASCII letters, whitespace, apostrophe. -/
def nameChar (c : Char) : Bool :=
  c.isAlpha || isWsChar c || c == '\''

/-- `parseInt` on a non-empty string of decimal digits. -/
def digitsToNat (ds : List Char) : Nat :=
  ds.foldl (fun n c => 10 * n + (c.toNat - 48)) 0

/-- `text.split('\n')` on character lists (JavaScript `split` keeps empty
segments, and always returns at least one segment). -/
def splitNl : List Char → List (List Char)
  | [] => [[]]
  | c :: rest =>
    if c == '\n' then
      [] :: splitNl rest
    else
      match splitNl rest with
      | [] => [[c]]
      | l :: ls => (c :: l) :: ls

/-- `line.trim()` (ASCII whitespace model). -/
def trimL (cs : List Char) : List Char :=
  ((cs.dropWhile isWsChar).reverse.dropWhile isWsChar).reverse

/-- `text.split('\n').map(l => l.trim()).filter(l => l.length > 0)`
(line 183 of the source). -/
def normalizeLines (cs : List Char) : List (List Char) :=
  ((splitNl cs).map trimL).filter (fun l => !l.isEmpty)

/-- Case-insensitive match of a (lower-case) literal pattern at the head of
the input; returns the remaining input on success. -/
def ciStarts : List Char → List Char → Option (List Char)
  | [], cs => some cs
  | _ :: _, [] => none
  | p :: ps, c :: cs => if c.toLower == p then ciStarts ps cs else none

/-- Unanchored case-insensitive substring test (used for the `/PATTERN/i`
fixed-word searches of the source: tracks, surfaces). -/
def ciContains (cs : List Char) (pat : List Char) : Bool :=
  match cs with
  | [] => (ciStarts pat []).isSome
  | _ :: rest =>
    match ciStarts pat cs with
    | some _ => true
    | none => ciContains rest pat

/-- surface enumeration `'dirt' | 'turf' | 'synthetic'` of the shared types. -/
inductive Surface where
  | dirt
  | turf
  | synthetic
deriving DecidableEq, Repr

/-- The fields of a `Horse` record that `extractHorseFromLine` populates.
`speedFigures` and `pastPerformances` are omitted: the source always sets
them to the empty object and the empty array, so they carry no information. -/
structure Horse where
  id : String
  number : Nat
  name : String
  jockey : String
  trainer : String
  weight : Nat
  odds : Option String
deriving DecidableEq, Repr

/-- The fields of a `Race` record that `extractRaces` populates.  `distance`,
`surface` and `purse` are left `undefined` by the source when no lookahead
line matched; this is embedded as `Option`. -/
structure Race where
  id : String
  number : Nat
  track : String
  date : String
  distance : Option String
  surface : Option Surface
  purse : Option Nat
  horses : List Horse
deriving DecidableEq, Repr

/-- The `Partial<RaceCard>` returned by `parseRaceData` (only `track`,
`date`, `races` are set). -/
structure RaceCard where
  track : String
  date : String
  races : List Race
deriving DecidableEq, Repr

/-- `OCRResult` of the shared types; `confidence` is embedded as a rational. -/
structure OCRResult where
  success : Bool
  text : String
  confidence : ℚ
  extractedData : Option RaceCard
  errors : Option (List String)
deriving DecidableEq, Repr

/-! ### Purse extractor (`extractPurse`, source lines 326-334)

Pattern `/\$?([\d,]+)/`.  The leftmost match of this pattern starts either at
a `$` immediately followed by a `[\d,]` character or at a `[\d,]` character,
and in both cases capture group 1 is the leftmost maximal run of `[\d,]`
characters of the line (the optional `$` does not constrain the group).  The
source then strips commas, applies `parseInt` (`NaN` on the empty string, in
which case the `> 1000` test is false) and keeps the amount only if
strictly greater than 1000. -/

/-- Characters of the class `[\d,]`. -/
def purseChar (c : Char) : Bool := c.isDigit || c == ','

/-- Capture group 1 of the leftmost match of `/\$?([\d,]+)/`: the first
maximal run of digits/commas. -/
def firstPurseGroup : List Char → Option (List Char)
  | [] => none
  | c :: rest =>
    if purseChar c then some ((c :: rest).takeWhile purseChar)
    else firstPurseGroup rest

/-- `parseInt(match[1].replace(/,/g, ''))`; `none` stands for `NaN`. -/
def purseAmount (cs : List Char) : Option Nat :=
  match firstPurseGroup cs with
  | none => none
  | some g =>
    let ds := g.filter (fun c => c != ',')
    if ds.isEmpty then none else some (digitsToNat ds)

/-- `extractPurse` (source lines 326-334): `if (amount > 1000) return amount;
return null`. -/
def extractPurse (cs : List Char) : Option Nat :=
  match purseAmount cs with
  | some a => if 1000 < a then some a else none
  | none => none

/-! ### Surface extractor (`extractSurface`, source lines 319-324) -/

/-- `extractSurface`: three case-insensitive keyword tests in priority
order (`/turf|grass/i`, `/synthetic|poly/i`, `/dirt|main/i`). -/
def extractSurface (cs : List Char) : Option Surface :=
  if ciContains cs ['t','u','r','f'] || ciContains cs ['g','r','a','s','s'] then
    some Surface.turf
  else if ciContains cs ['s','y','n','t','h','e','t','i','c'] ||
      ciContains cs ['p','o','l','y'] then
    some Surface.synthetic
  else if ciContains cs ['d','i','r','t'] || ciContains cs ['m','a','i','n'] then
    some Surface.dirt
  else none

/-! ### Distance extractor (`extractDistance`, source lines 313-317)

Pattern `/(\d+(?:\.\d+)?\s*(?:furlongs?|miles?|f|m))/i`, leftmost match,
returning capture group 1 (the whole match) with the input's original
casing.  All quantifiers in the pattern are forced (the adjacent character
classes are disjoint), so the match at a given position is deterministic. -/

/-- The unit alternation `(?:furlongs?|miles?|f|m)` (tried in that order,
case-insensitively); returns the matched original characters and the rest. -/
def distanceUnit (cs : List Char) : Option (List Char) :=
  match ciStarts ['f','u','r','l','o','n','g'] cs with
  | some r =>
    match r with
    | c :: _ => if c.toLower == 's' then some (cs.take 8) else some (cs.take 7)
    | [] => some (cs.take 7)
  | none =>
    match ciStarts ['m','i','l','e'] cs with
    | some r =>
      match r with
      | c :: _ => if c.toLower == 's' then some (cs.take 5) else some (cs.take 4)
      | [] => some (cs.take 4)
    | none =>
      match cs with
      | c :: _ => if c.toLower == 'f' || c.toLower == 'm' then some [c] else none
      | [] => none

/-- Match of the distance pattern anchored at the current position:
`\d+` (maximal), optional `\.\d+`, `\s*`, then a unit. -/
def distanceAt (cs : List Char) : Option (List Char) :=
  let ds := cs.takeWhile Char.isDigit
  if ds.isEmpty then none
  else
    let r1 := cs.dropWhile Char.isDigit
    let (dec, r2) :=
      match r1 with
      | '.' :: r =>
        let fs := r.takeWhile Char.isDigit
        if fs.isEmpty then (([] : List Char), r1)
        else ('.' :: fs, r.dropWhile Char.isDigit)
      | _ => ([], r1)
    let ws := r2.takeWhile isWsChar
    match distanceUnit (r2.dropWhile isWsChar) with
    | some u => some (ds ++ dec ++ ws ++ u)
    | none => none

/-- `extractDistance`: leftmost match of the distance pattern. -/
def extractDistance : List Char → Option String
  | [] => none
  | c :: rest =>
    match distanceAt (c :: rest) with
    | some m => some (String.mk m)
    | none => extractDistance rest

/-! ### Track extractor (`extractTrack`, source lines 268-289)

Ten fixed case-insensitive patterns tried in order against the whole text;
the source returns `match[0].toUpperCase()`, which for an ASCII
case-insensitive match of an upper-case pattern is the pattern itself. -/

def trackPatterns : List String :=
  ["SANTA ANITA", "GULFSTREAM", "CHURCHILL DOWNS", "BELMONT", "SARATOGA",
   "KEENELAND", "OAKLAWN", "FAIR GROUNDS", "AQUEDUCT", "WOODBINE"]

/-- `extractTrack`: first listed track whose name occurs (case-insensitively)
in the text, upper-cased. -/
def extractTrack (cs : List Char) : Option String :=
  trackPatterns.findSome? fun p =>
    if ciContains cs (p.data.map Char.toLower) then some p else none

/-! ### Date extractor (`extractDate`, source lines 291-311)

Three patterns tried in order; for the first pattern that has a match in the
text, the matched string is fed to `new Date(...)`; if that yields a valid
date the source returns `toISOString().split('T')[0]`, otherwise it falls
through to the next pattern.  `new Date` is a platform builtin: it is
modelled here for the three shapes the patterns can produce, under a UTC
runtime (month word = any case-insensitive prefix of length ≥ 3 of an
English month name, day validated against the 1..31 bound; rejection of
calendar-impossible days such as February 30 is approximated by that
bound). -/

/-- JavaScript `\w`: `[A-Za-z0-9_]`. -/
def isWordChar (c : Char) : Bool := c.isAlphanum || c == '_'

def monthNames : List (List Char) :=
  [['j','a','n','u','a','r','y'], ['f','e','b','r','u','a','r','y'],
   ['m','a','r','c','h'], ['a','p','r','i','l'], ['m','a','y'],
   ['j','u','n','e'], ['j','u','l','y'], ['a','u','g','u','s','t'],
   ['s','e','p','t','e','m','b','e','r'], ['o','c','t','o','b','e','r'],
   ['n','o','v','e','m','b','e','r'], ['d','e','c','e','m','b','e','r']]

/-- Month-name recognition of the platform date parser: a word of at least
three characters that is a case-insensitive prefix of a month name. -/
def monthFromWord (w : List Char) : Option Nat :=
  if w.length < 3 then none
  else
    let lw := w.map Char.toLower
    (List.range 12).findSome? fun i =>
      match monthNames[i]? with
      | some m => if List.isPrefixOf lw m then some (i + 1) else none
      | none => none

def pad2 (n : Nat) : String :=
  if n < 10 then "0" ++ toString n else toString n

def pad4 (n : Nat) : String :=
  if n < 10 then "000" ++ toString n
  else if n < 100 then "00" ++ toString n
  else if n < 1000 then "0" ++ toString n
  else toString n

/-- `date.toISOString().split('T')[0]` for a date at UTC midnight. -/
def isoDate (y m d : Nat) : String :=
  pad4 y ++ "-" ++ pad2 m ++ "-" ++ pad2 d

/-- Match of `(\w+\s+\d{1,2},\s+\d{4})` anchored at the current position,
returning the month word, day and year.  All quantifiers are forced: `\w`
and `\s` are disjoint, a digit run of length 3 or more can never be followed
by the required `,` or be shortened into one that is, and `\d{4}` takes the
first four digits of a longer run. -/
def longDateAt (cs : List Char) : Option (List Char × Nat × Nat) :=
  let w := cs.takeWhile isWordChar
  if w.isEmpty then none
  else
    let r1 := cs.dropWhile isWordChar
    if (r1.takeWhile isWsChar).isEmpty then none
    else
      let r2 := r1.dropWhile isWsChar
      let ds := r2.takeWhile Char.isDigit
      if ds.isEmpty || decide (2 < ds.length) then none
      else
        match r2.dropWhile Char.isDigit with
        | ',' :: r3 =>
          if (r3.takeWhile isWsChar).isEmpty then none
          else
            let r4 := r3.dropWhile isWsChar
            let ys := r4.takeWhile Char.isDigit
            if decide (ys.length < 4) then none
            else some (w, digitsToNat ds, digitsToNat (ys.take 4))
        | _ => none

/-- Leftmost match of the long date pattern. -/
def findLongDate : List Char → Option (List Char × Nat × Nat)
  | [] => none
  | c :: rest =>
    match longDateAt (c :: rest) with
    | some r => some r
    | none => findLongDate rest

/-- Match of `(\d{1,2}\/\d{1,2}\/\d{4})` anchored at the current position. -/
def slashDateAt (cs : List Char) : Option (Nat × Nat × Nat) :=
  let ds := cs.takeWhile Char.isDigit
  if ds.isEmpty || decide (2 < ds.length) then none
  else
    match cs.dropWhile Char.isDigit with
    | '/' :: r1 =>
      let ds2 := r1.takeWhile Char.isDigit
      if ds2.isEmpty || decide (2 < ds2.length) then none
      else
        match r1.dropWhile Char.isDigit with
        | '/' :: r2 =>
          let ys := r2.takeWhile Char.isDigit
          if decide (ys.length < 4) then none
          else some (digitsToNat ds, digitsToNat ds2, digitsToNat (ys.take 4))
        | _ => none
    | _ => none

def findSlashDate : List Char → Option (Nat × Nat × Nat)
  | [] => none
  | c :: rest =>
    match slashDateAt (c :: rest) with
    | some r => some r
    | none => findSlashDate rest

/-- Match of `(\d{4}-\d{2}-\d{2})` anchored at the current position (the
fixed-count groups force the digit runs to have the exact lengths, except
that the final `\d{2}` takes the first two digits of a longer run). -/
def isoDateAt (cs : List Char) : Option (Nat × Nat × Nat) :=
  let ys := cs.takeWhile Char.isDigit
  if ys.length != 4 then none
  else
    match cs.dropWhile Char.isDigit with
    | '-' :: r1 =>
      let ms := r1.takeWhile Char.isDigit
      if ms.length != 2 then none
      else
        match r1.dropWhile Char.isDigit with
        | '-' :: r2 =>
          let ds := r2.takeWhile Char.isDigit
          if decide (ds.length < 2) then none
          else some (digitsToNat ys, digitsToNat ms, digitsToNat (ds.take 2))
        | _ => none
    | _ => none

def findIsoDate : List Char → Option (Nat × Nat × Nat)
  | [] => none
  | c :: rest =>
    match isoDateAt (c :: rest) with
    | some r => some r
    | none => findIsoDate rest

/-- `extractDate`: the three patterns in order, each with the platform
validity check and ISO normalization. -/
def extractDate (cs : List Char) : Option String :=
  let long :=
    match findLongDate cs with
    | some (w, d, y) =>
      match monthFromWord w with
      | some m => if 1 ≤ d ∧ d ≤ 31 then some (isoDate y m d) else none
      | none => none
    | none => none
  match long with
  | some s => some s
  | none =>
    let slash :=
      match findSlashDate cs with
      | some (m, d, y) =>
        if 1 ≤ m ∧ m ≤ 12 ∧ 1 ≤ d ∧ d ≤ 31 then some (isoDate y m d) else none
      | none => none
    match slash with
    | some s => some s
    | none =>
      match findIsoDate cs with
      | some (y, m, d) =>
        if 1 ≤ m ∧ m ≤ 12 ∧ 1 ≤ d ∧ d ≤ 31 then some (isoDate y m d) else none
      | none => none

/-! ### Race-header recognition (`raceHeaderRegex`, source line 186)

Pattern `/(?:RACE\s+(\d+)|(\d+)(?:st|nd|rd|th)?\s+RACE)/i`, used with
`line.match`, i.e. an unanchored leftmost search; at each position the two
alternatives are tried in order.  The source then takes
`parseInt(raceMatch[1] || raceMatch[2])`. -/

/-- First alternative `RACE\s+(\d+)` anchored at the current position. -/
def raceHeaderAlt1 (cs : List Char) : Option Nat :=
  match ciStarts ['r','a','c','e'] cs with
  | some r =>
    if (r.takeWhile isWsChar).isEmpty then none
    else
      let ds := (r.dropWhile isWsChar).takeWhile Char.isDigit
      if ds.isEmpty then none else some (digitsToNat ds)
  | none => none

/-- The optional ordinal suffix `(?:st|nd|rd|th)?` (case-insensitive);
consuming it is forced whenever it is present, since the following `\s+`
cannot match a letter. -/
def ordinalSuffix (cs : List Char) : Option (List Char) :=
  match cs with
  | a :: b :: rest =>
    let s := [a.toLower, b.toLower]
    if s = ['s','t'] || s = ['n','d'] || s = ['r','d'] || s = ['t','h'] then
      some rest
    else none
  | _ => none

/-- Second alternative `(\d+)(?:st|nd|rd|th)?\s+RACE` anchored at the
current position. -/
def raceHeaderAlt2 (cs : List Char) : Option Nat :=
  let ds := cs.takeWhile Char.isDigit
  if ds.isEmpty then none
  else
    let r := cs.dropWhile Char.isDigit
    let r1 := match ordinalSuffix r with
              | some r2 => r2
              | none => r
    if (r1.takeWhile isWsChar).isEmpty then none
    else
      match ciStarts ['r','a','c','e'] (r1.dropWhile isWsChar) with
      | some _ => some (digitsToNat ds)
      | none => none

/-- The race header test at one position: alternation order of the source. -/
def raceHeaderAt (cs : List Char) : Option Nat :=
  match raceHeaderAlt1 cs with
  | some n => some n
  | none => raceHeaderAlt2 cs

/-- `line.match(raceHeaderRegex)` with the extracted race number: leftmost
position at which either alternative matches. -/
def findRaceHeader : List Char → Option Nat
  | [] => none
  | c :: rest =>
    match raceHeaderAt (c :: rest) with
    | some n => some n
    | none => findRaceHeader rest

/-! ### Horse-entry extractor (`extractHorseFromLine`, source lines 246-266)

Pattern (anchored on both ends, `i` flag):

  `^(\d{1,2})\.?\s+([A-Z\s']+?)\s*(?:\(([^)]+)\))?\s*(?:(\d+-\d+|\d+\/\d+))?\s*$`

The matchers below reproduce the engine's backtracking for this pattern:

* `(\d{1,2})` is forced to the whole leading digit run: a shorter take
  leaves a digit, which neither `\.?` nor `\s+` can match, and a run of
  three or more digits makes the whole pattern fail.
* `\.?` is forced: skipping a present dot leaves it for `\s+`, which fails.
* Everything after the (lazy) name group is deterministic: `[^)]+` inside
  the parenthesis group is forced to run to the first `)`; skipping a
  present-but-unclosed or empty group leaves `(` unmatched by the rest, so
  the whole attempt fails; an odds alternative, once its digit runs and
  separator are fixed (they are forced), only survives if the remainder is
  whitespace.
* `([A-Z\s']+?)` is lazy: the shortest name whose suffix matches wins;
  `matchNameFrom` extends the name one class character at a time.
* `\s+` before the name is greedy but can give trailing whitespace back to
  the name group (whose class contains `\s`): `tryNameFrom` retries with
  ever shorter whitespace takes, which is exactly the engine's order of
  exploration (new attempts only add suffix positions inside the
  whitespace run, where leading `\s*` makes the suffix test agree). -/

/-- `[^)]+\)` after an opening parenthesis: characters up to the first `)`,
and the rest after it. -/
def splitAtRparen : List Char → Option (List Char × List Char)
  | [] => none
  | c :: rest =>
    if c == ')' then some ([], rest)
    else
      match splitAtRparen rest with
      | some (a, b) => some (c :: a, b)
      | none => none

/-- The odds alternation `(\d+-\d+|\d+\/\d+)` anchored at the current
position: digit run, `-` or `/`, digit run.  Returns the capture and the
rest. -/
def matchOdds (cs : List Char) : Option (List Char × List Char) :=
  let d1 := cs.takeWhile Char.isDigit
  if d1.isEmpty then none
  else
    match cs.dropWhile Char.isDigit with
    | '-' :: r2 =>
      let d2 := r2.takeWhile Char.isDigit
      if d2.isEmpty then none
      else some (d1 ++ '-' :: d2, r2.dropWhile Char.isDigit)
    | '/' :: r2 =>
      let d2 := r2.takeWhile Char.isDigit
      if d2.isEmpty then none
      else some (d1 ++ '/' :: d2, r2.dropWhile Char.isDigit)
    | _ => none

/-- `\s*(?:(\d+-\d+|\d+\/\d+))?\s*$` with an already-fixed jockey capture. -/
def afterJockey (j : Option (List Char)) (cs : List Char) :
    Option (Option (List Char) × Option (List Char)) :=
  let cs2 := cs.dropWhile isWsChar
  match cs2 with
  | [] => some (j, none)
  | c :: _ =>
    if c.isDigit then
      match matchOdds cs2 with
      | some (cap, rest) =>
        if (rest.dropWhile isWsChar).isEmpty then some (j, some cap) else none
      | none => none
    else none

/-- `\s*(?:\(([^)]+)\))?\s*(?:(\d+-\d+|\d+\/\d+))?\s*$`: the part of the
pattern after the name group.  Returns the jockey and odds captures. -/
def horseTail (cs : List Char) : Option (Option (List Char) × Option (List Char)) :=
  let cs1 := cs.dropWhile isWsChar
  match cs1 with
  | '(' :: rest =>
    match splitAtRparen rest with
    | some (cap, r) => if cap.isEmpty then none else afterJockey (some cap) r
    | none => none
  | _ => afterJockey none cs1

/-- The lazy name group: starting from the accumulated name characters, try
the tail after each additional `[A-Z\s']` character, shortest name first. -/
def matchNameFrom : List Char → List Char → Option (List Char × Option (List Char) × Option (List Char))
  | _, [] => none
  | acc, c :: rest =>
    if nameChar c then
      match horseTail rest with
      | some (j, o) => some ((c :: acc).reverse, j, o)
      | none => matchNameFrom (c :: acc) rest
    else none

/-- `\s+` (greedy, with give-back into the name group): try the name after
`i` leading whitespace characters, for `i` from the full run down to 1. -/
def tryNameFrom (cs : List Char) : Nat → Option (List Char × Option (List Char) × Option (List Char))
  | 0 => none
  | i + 1 =>
    match matchNameFrom [] (cs.drop (i + 1)) with
    | some r => some r
    | none => tryNameFrom cs i

/-- `\s+([A-Z\s']+?)...` after the digits and optional dot. -/
def matchWsName (cs : List Char) : Option (List Char × Option (List Char) × Option (List Char)) :=
  tryNameFrom cs (cs.takeWhile isWsChar).length

/-- `\.?` after the digit capture: consuming a present dot is forced, since
a skipped dot cannot be matched by the following `\s+`. -/
def afterNumber (cs : List Char) : List Char :=
  match cs.dropWhile Char.isDigit with
  | '.' :: r => r
  | rest => rest

/-- The full horse-entry pattern: digit capture, name capture, optional
jockey and odds captures. -/
def horseMatch (cs : List Char) :
    Option (List Char × List Char × Option (List Char) × Option (List Char)) :=
  if (cs.takeWhile Char.isDigit).isEmpty ||
      decide (2 < (cs.takeWhile Char.isDigit).length) then none
  else
    match matchWsName (afterNumber cs) with
    | some (nm, j, o) => some (cs.takeWhile Char.isDigit, nm, j, o)
    | none => none

/-- `extractHorseFromLine` (source lines 246-266): build the `Horse` record
from the captures, with the source's defaulting (`jockey?.trim() ||
'Unknown'`, constant trainer and weight, `odds?.trim()`). -/
def extractHorseFromLine (line : List Char) : Option Horse :=
  match horseMatch line with
  | none => none
  | some (ds, nm, j, o) =>
    some
      { id := "horse-" ++ String.mk ds
        number := digitsToNat ds
        name := String.mk (trimL nm)
        jockey :=
          match j with
          | some cap =>
            let t := String.mk (trimL cap)
            if t = "" then "Unknown" else t
          | none => "Unknown"
        trainer := "Unknown"
        weight := 120
        odds := o.map fun cap => String.mk (trimL cap) }

/-! ### Race assembler (`extractRaces`, source lines 181-244) -/

/-- The mutable `currentRace` object of the loop (all fields of `Race`
except `horses`, which is kept separately as `currentHorses`). -/
structure RaceDraft where
  id : String
  number : Nat
  track : String
  date : String
  distance : Option String
  surface : Option Surface
  purse : Option Nat
deriving DecidableEq, Repr

/-- `races.push({ ...currentRace, horses: currentHorses })`. -/
def mkRace (d : RaceDraft) (hs : List Horse) : Race :=
  { id := d.id, number := d.number, track := d.track, date := d.date,
    distance := d.distance, surface := d.surface, purse := d.purse,
    horses := hs }

/-- `if (currentRace && currentHorses.length > 0) races.push(...)`
(source lines 197-201 and 236-241). -/
def flushDraft : Option RaceDraft → List Horse → List Race
  | some d, hs => if hs.isEmpty then [] else [mkRace d hs]
  | none, _ => []

/-- The fresh draft opened on a race header (source lines 205-213); `today`
stands for `new Date().toISOString().split('T')[0]`. -/
def initialDraft (n : Nat) (today : String) : RaceDraft :=
  { id := "race-" ++ toString n, number := n, track := "Unknown",
    date := today, distance := none, surface := none, purse := none }

/-- `if (distance) currentRace.distance = distance` (source line 222). -/
def applyDistance (d : RaceDraft) (l : List Char) : RaceDraft :=
  match extractDistance l with
  | some s => { d with distance := some s }
  | none => d

/-- `if (surface) currentRace.surface = surface` (source line 223). -/
def applySurface (d : RaceDraft) (l : List Char) : RaceDraft :=
  match extractSurface l with
  | some s => { d with surface := some s }
  | none => d

/-- `if (purse) currentRace.purse = purse` (source line 224; a returned
purse is > 1000, hence truthy, and `null` is falsy). -/
def applyPurse (d : RaceDraft) (l : List Char) : RaceDraft :=
  match extractPurse l with
  | some p => { d with purse := some p }
  | none => d

/-- One lookahead line (source lines 217-224): each extractor's non-null
result overwrites the corresponding draft field. -/
def applyLine (d : RaceDraft) (l : List Char) : RaceDraft :=
  applyPurse (applySurface (applyDistance d l) l) l

/-- The bounded lookahead `for (j = i+1; j < min(i+5, lines.length); j++)`
(source line 216): the (up to) four lines after the header, scanned in
order with last-match-wins per field. -/
def applyLookahead (d : RaceDraft) (ls : List (List Char)) : RaceDraft :=
  ls.foldl applyLine d

/-- The single-pass loop of `extractRaces` (source lines 191-241) over the
normalized lines, carrying the open draft, its horses, and the races
produced so far. -/
def racesLoop (today : String) :
    List (List Char) → Option RaceDraft → List Horse → List Race → List Race
  | [], cur, hs, acc => acc ++ flushDraft cur hs
  | l :: rest, cur, hs, acc =>
    match findRaceHeader l with
    | some n =>
      racesLoop today rest
        (some (applyLookahead (initialDraft n today) (rest.take 4))) []
        (acc ++ flushDraft cur hs)
    | none =>
      match cur with
      | some _ =>
        match extractHorseFromLine l with
        | some h => racesLoop today rest cur (hs ++ [h]) acc
        | none => racesLoop today rest cur hs acc
      | none => racesLoop today rest cur hs acc

/-- `extractRaces`. -/
def extractRaces (today : String) (text : String) : List Race :=
  racesLoop today (normalizeLines text.data) none [] []

/-! ### Document parser (`parseRaceData`, `processPDF`, `processFile`) -/

/-- `parseRaceData` (source lines 164-179).  The embedded extractors are
total, so the `catch` branch returning `{}` is unreachable. -/
def parseRaceData (today : String) (text : String) : RaceCard :=
  { track := (extractTrack text.data).getD "Unknown Track"
    date := (extractDate text.data).getD today
    races := extractRaces today text }

/-- `processPDF` (source lines 47-77) as a function of the text delivered by
the external `pdf-parse` collaborator (its read/parse failures rethrow and
are handled in `processFile`).  The guard `pdfData.text && length > 100` is
`length > 100`: the empty string is falsy and has length 0. -/
def processPDF (today : String) (pdfText : String) : OCRResult :=
  if 100 < pdfText.length then
    { success := true, text := pdfText, confidence := 9 / 10,
      extractedData := some (parseRaceData today pdfText), errors := none }
  else
    { success := true, text := pdfText, confidence := 1 / 2,
      extractedData := some (parseRaceData today pdfText), errors := none }

/-- Outcome of the external text-layer extraction for a PDF
(`fs.readFile` + `pdf-parse`): the text, or a thrown error's message. -/
inductive PdfOutcome where
  | ok (text : String)
  | err (msg : String)

/-- Outcome of the whole image path (`processImage`: Google Vision or
Tesseract, both external): a result, or a thrown error's message. -/
inductive ImageOutcome where
  | ok (r : OCRResult)
  | err (msg : String)

/-- The failure value built in the `catch` of `processFile`
(source lines 36-44). -/
def errorResult (msg : String) : OCRResult :=
  { success := false, text := "", confidence := 0,
    extractedData := none, errors := some [msg] }

/-- `fileName.toLowerCase().split('.').pop()` (source line 24); `split`
always returns a non-empty array, so `pop` is the last segment. -/
def fileExtension (fileName : String) : String :=
  String.mk (((fileName.data.map Char.toLower).splitOn '.').getLastD [])

/-- `processFile` (source lines 22-45): dispatch on the file extension; any
error thrown on a path (modelled by the `err` outcomes, and by the
`Unsupported file type` throw of the `default` branch) is caught and turned
into `errorResult`. -/
def processFile (today : String) (fileName : String)
    (pdf : PdfOutcome) (img : ImageOutcome) : OCRResult :=
  let ext := fileExtension fileName
  if ext = "pdf" then
    match pdf with
    | PdfOutcome.ok t => processPDF today t
    | PdfOutcome.err m => errorResult m
  else if ext = "jpg" || ext = "jpeg" || ext = "png" then
    match img with
    | ImageOutcome.ok r => r
    | ImageOutcome.err m => errorResult m
  else errorResult ("Unsupported file type: " ++ ext)

/-! ## Helper lemmas -/

theorem mem_of_mem_dropWhile {α : Type} {p : α → Bool} {a : α} :
    ∀ {l : List α}, a ∈ l.dropWhile p → a ∈ l := by
  intro l
  induction l with
  | nil => intro h; exact absurd h (List.not_mem_nil a)
  | cons c t ih =>
    intro h
    rw [List.dropWhile] at h
    by_cases hp : p c
    · simp only [hp] at h
      exact List.mem_cons_of_mem c (ih h)
    · simp only [Bool.not_eq_true] at hp
      simp only [hp] at h
      exact h

theorem digit_val_le {c : Char} (h : c.isDigit = true) : c.toNat - 48 ≤ 9 := by
  simp only [Char.isDigit, decide_eq_true_eq, Bool.and_eq_true] at h
  have h2 : c ≤ '9' := by
    rcases h with ⟨_, h2⟩
    simpa using h2
  have : c.toNat ≤ 57 := h2
  omega

theorem digitsToNat_le_99 {ds : List Char} (hlen : ds.length ≤ 2)
    (hd : ∀ c ∈ ds, c.isDigit = true) : digitsToNat ds ≤ 99 := by
  match ds, hlen with
  | [], _ => simp [digitsToNat]
  | [a], _ =>
    have ha := digit_val_le (hd a (by simp))
    simp only [digitsToNat, List.foldl]
    omega
  | [a, b], _ =>
    have ha := digit_val_le (hd a (by simp))
    have hb := digit_val_le (hd b (by simp))
    simp only [digitsToNat, List.foldl]
    omega

theorem horseMatch_digits {cs ds nm : List Char}
    {j o : Option (List Char)}
    (h : horseMatch cs = some (ds, nm, j, o)) :
    ds = cs.takeWhile Char.isDigit ∧ ds.length ≤ 2 ∧ ds ≠ [] := by
  rw [horseMatch] at h
  split at h
  · exact absurd h (by simp)
  · rename_i hg
    rw [Bool.or_eq_true, not_or] at hg
    rcases hg with ⟨hne, hlen⟩
    have hne' : cs.takeWhile Char.isDigit ≠ [] := by
      intro hnil
      exact hne (by rw [hnil]; rfl)
    have hlen' : (cs.takeWhile Char.isDigit).length ≤ 2 := by
      by_contra hc
      exact hlen (by simpa using Nat.lt_of_not_le hc)
    split at h
    · rename_i nm' j' o' hm
      injection h with h1
      injection h1 with hds h2
      exact ⟨hds.symm, hds ▸ hlen', hds ▸ hne'⟩
    · exact absurd h (by simp)

theorem extractHorse_number_le {l : List Char} {h : Horse}
    (hm : extractHorseFromLine l = some h) : h.number ≤ 99 := by
  rw [extractHorseFromLine] at hm
  cases hmc : horseMatch l with
  | none => rw [hmc] at hm; exact absurd hm (by simp)
  | some r =>
    rcases r with ⟨ds, nm, j, o⟩
    rw [hmc] at hm
    injection hm with hm
    rcases horseMatch_digits hmc with ⟨hds, hlen, _⟩
    have hdig : ∀ c ∈ ds, c.isDigit = true := by
      intro c hc
      rw [hds] at hc
      exact List.mem_takeWhile_imp hc
    have : h.number = digitsToNat ds := by rw [← hm]
    rw [this]
    exact digitsToNat_le_99 hlen hdig

/-! ## Character provenance of the optional jockey/odds captures (for C8) -/

theorem matchOdds_has_sep {cs cap rest : List Char}
    (h : matchOdds cs = some (cap, rest)) : '-' ∈ cs ∨ '/' ∈ cs := by
  rw [matchOdds] at h
  split at h
  · exact absurd h (by simp)
  · split at h
    · rename_i r2 hdrop
      left
      exact mem_of_mem_dropWhile (p := Char.isDigit) (by rw [hdrop]; simp)
    · rename_i r2 hdrop
      right
      exact mem_of_mem_dropWhile (p := Char.isDigit) (by rw [hdrop]; simp)
    · exact absurd h (by simp)

theorem afterJockey_fst {j : Option (List Char)} {cs : List Char}
    {j' o : Option (List Char)}
    (h : afterJockey j cs = some (j', o)) : j' = j := by
  rw [afterJockey] at h
  split at h
  · injection h with h; injection h with h1 h2; exact h1.symm
  · split at h
    · split at h
      · split at h
        · injection h with h; injection h with h1 h2; exact h1.symm
        · exact absurd h (by simp)
      · exact absurd h (by simp)
    · exact absurd h (by simp)

theorem afterJockey_odds_none {j : Option (List Char)} {cs : List Char}
    {j' o : Option (List Char)}
    (h : afterJockey j cs = some (j', o))
    (hm : '-' ∉ cs) (hs : '/' ∉ cs) : o = none := by
  rw [afterJockey] at h
  split at h
  · injection h with h; injection h with h1 h2; exact h2.symm
  · split at h
    · split at h
      · rename_i hodds
        rcases matchOdds_has_sep hodds with hc | hc
        · exact absurd (mem_of_mem_dropWhile (p := isWsChar) hc) hm
        · exact absurd (mem_of_mem_dropWhile (p := isWsChar) hc) hs
      · exact absurd h (by simp)
    · exact absurd h (by simp)

theorem horseTail_captures {cs : List Char} {j o : Option (List Char)}
    (h : horseTail cs = some (j, o))
    (hp : '(' ∉ cs) (hm : '-' ∉ cs) (hs : '/' ∉ cs) :
    j = none ∧ o = none := by
  rw [horseTail] at h
  split at h
  · rename_i rest hdrop
    exact absurd (mem_of_mem_dropWhile (p := isWsChar) (by rw [hdrop]; simp)) hp
  · rename_i hne
    have hsub : ∀ c : Char, c ∈ cs.dropWhile isWsChar → c ∈ cs := fun c hc =>
      mem_of_mem_dropWhile hc
    exact ⟨afterJockey_fst h,
      afterJockey_odds_none h (fun hc => hm (hsub _ hc)) (fun hc => hs (hsub _ hc))⟩

theorem matchNameFrom_captures :
    ∀ {cs : List Char} {acc nm : List Char} {j o : Option (List Char)},
      matchNameFrom acc cs = some (nm, j, o) →
      '(' ∉ cs → '-' ∉ cs → '/' ∉ cs → j = none ∧ o = none := by
  intro cs
  induction cs with
  | nil => intro acc nm j o h _ _ _; exact absurd h (by simp [matchNameFrom])
  | cons c rest ih =>
    intro acc nm j o h hp hm hs
    rw [matchNameFrom] at h
    split at h
    · split at h
      · rename_i ht
        injection h with h
        injection h with h1 h2
        injection h2 with h2 h3
        subst h2; subst h3
        exact horseTail_captures ht
          (fun hc => hp (List.mem_cons_of_mem c hc))
          (fun hc => hm (List.mem_cons_of_mem c hc))
          (fun hc => hs (List.mem_cons_of_mem c hc))
      · exact ih h
          (fun hc => hp (List.mem_cons_of_mem c hc))
          (fun hc => hm (List.mem_cons_of_mem c hc))
          (fun hc => hs (List.mem_cons_of_mem c hc))
    · exact absurd h (by simp)

theorem tryNameFrom_captures {cs : List Char} :
    ∀ {i : Nat} {nm : List Char} {j o : Option (List Char)},
      tryNameFrom cs i = some (nm, j, o) →
      '(' ∉ cs → '-' ∉ cs → '/' ∉ cs → j = none ∧ o = none := by
  intro i
  induction i with
  | zero => intro nm j o h _ _ _; exact absurd h (by simp [tryNameFrom])
  | succ k ih =>
    intro nm j o h hp hm hs
    rw [tryNameFrom] at h
    split at h
    · rename_i hmn
      injection h with h; subst h
      exact matchNameFrom_captures hmn
        (fun hc => hp (List.drop_subset _ _ hc))
        (fun hc => hm (List.drop_subset _ _ hc))
        (fun hc => hs (List.drop_subset _ _ hc))
    · exact ih h hp hm hs

theorem horseMatch_captures {cs ds nm : List Char} {j o : Option (List Char)}
    (h : horseMatch cs = some (ds, nm, j, o))
    (hp : '(' ∉ cs) (hm : '-' ∉ cs) (hs : '/' ∉ cs) :
    j = none ∧ o = none := by
  have hsub : ∀ c : Char, c ∈ afterNumber cs → c ∈ cs := by
    intro c hc
    rw [afterNumber] at hc
    revert hc
    split
    · rename_i r hdrop
      intro hc
      exact mem_of_mem_dropWhile (p := Char.isDigit)
        (by rw [hdrop]; exact List.mem_cons_of_mem '.' hc)
    · intro hc
      exact mem_of_mem_dropWhile (p := Char.isDigit) hc
  rw [horseMatch] at h
  split at h
  · exact absurd h (by simp)
  · split at h
    · rename_i nm' j' o' hw
      injection h with h
      injection h with h1 h2
      injection h2 with h2 h3
      injection h3 with h3 h4
      subst h3; subst h4
      exact tryNameFrom_captures hw
        (fun hc => hp (hsub _ hc))
        (fun hc => hm (hsub _ hc))
        (fun hc => hs (hsub _ hc))
    · exact absurd h (by simp)

/-! ## Claims C2, C6, C7, C10 -/

/-- C2 counterexample: on the line `$1000` the parsed amount is 1000, which
is ≥ 1000, yet `extractPurse` returns nothing — the source keeps an amount
only if it is strictly greater than 1000. -/
theorem C2_counterexample :
    purseAmount "$1000".data = some 1000 ∧ (1000 : Nat) ≥ 1000 ∧
      extractPurse "$1000".data = none := by
  refine ⟨by decide, by decide, by decide⟩

/-- C2 (amended): the purse extractor parses the leftmost digit group (with
optional thousands separators, the optional currency symbol imposing no
constraint) and returns the parsed integer exactly when it is strictly
greater than 1000; any line whose amount parses to at most 1000 — in
particular every amount below 1000 — yields nothing. -/
theorem C2_purse_threshold (cs : List Char) (v : Nat)
    (h : purseAmount cs = some v) :
    (1000 < v → extractPurse cs = some v) ∧
      (v ≤ 1000 → extractPurse cs = none) := by
  constructor
  · intro hv
    simp [extractPurse, h, hv]
  · intro hv
    simp [extractPurse, h, Nat.not_lt.mpr hv]

theorem C2_purse_threshold_witness :
    purseAmount "Purse $40,000".data = some 40000 ∧
      extractPurse "Purse $40,000".data = some 40000 ∧
      purseAmount "$1000".data = some 1000 ∧
      extractPurse "$1000".data = none := by
  refine ⟨by decide, ?_, by decide, ?_⟩
  · exact (C2_purse_threshold "Purse $40,000".data 40000 (by decide)).1 (by decide)
  · exact (C2_purse_threshold "$1000".data 1000 (by decide)).2 (by decide)

/-- C6: a text-bearing PDF whose externally extracted text is longer than
100 characters yields confidence 9/10; one of at most 100 characters yields
confidence 1/2; in both cases `success` is true and the race assembler
(`parseRaceData`) is run over the available text. -/
theorem C6_confidence_tiers (today : String) (text : String) :
    (100 < text.length →
      processPDF today text =
        { success := true, text := text, confidence := 9 / 10,
          extractedData := some (parseRaceData today text), errors := none }) ∧
    (text.length ≤ 100 →
      processPDF today text =
        { success := true, text := text, confidence := 1 / 2,
          extractedData := some (parseRaceData today text), errors := none }) := by
  constructor
  · intro h
    simp [processPDF, h]
  · intro h
    simp [processPDF, Nat.not_lt.mpr h]

theorem C6_confidence_tiers_witness :
    (processPDF "2024-01-01" (String.mk (List.replicate 150 'a'))).confidence = 9 / 10 ∧
      (processPDF "2024-01-01" (String.mk (List.replicate 150 'a'))).success = true ∧
      (processPDF "2024-01-01" (String.mk (List.replicate 50 'a'))).confidence = 1 / 2 ∧
      (processPDF "2024-01-01" (String.mk (List.replicate 50 'a'))).success = true := by
  have h1 := (C6_confidence_tiers "2024-01-01" (String.mk (List.replicate 150 'a'))).1
    (by decide)
  have h2 := (C6_confidence_tiers "2024-01-01" (String.mk (List.replicate 50 'a'))).2
    (by decide)
  rw [h1, h2]
  exact ⟨rfl, rfl, rfl, rfl⟩

/-- C7: the orchestrator converts every failure of either extraction path
into `{success: false, text: '', confidence: 0, errors: [message]}`, and a
file whose extension is not pdf/jpg/jpeg/png fails that way immediately,
with the unsupported-type message and independently of either extraction
outcome (no extraction attempted).  `processFile` is a total function of
the file name and the modelled outcomes of the two external paths, which is
the embedding of "never propagates an exception". -/
theorem C7_error_containment (today fileName : String)
    (pdf : PdfOutcome) (img : ImageOutcome) (m : String) :
    (fileExtension fileName = "pdf" → pdf = PdfOutcome.err m →
      processFile today fileName pdf img = errorResult m) ∧
    ((fileExtension fileName = "jpg" ∨ fileExtension fileName = "jpeg" ∨
        fileExtension fileName = "png") → img = ImageOutcome.err m →
      processFile today fileName pdf img = errorResult m) ∧
    (fileExtension fileName ≠ "pdf" → fileExtension fileName ≠ "jpg" →
      fileExtension fileName ≠ "jpeg" → fileExtension fileName ≠ "png" →
      processFile today fileName pdf img =
        errorResult ("Unsupported file type: " ++ fileExtension fileName)) := by
  refine ⟨?_, ?_, ?_⟩
  · intro hext hp
    simp [processFile, hext, hp]
  · intro hext hi
    rcases hext with h | h | h <;> simp [processFile, h, hi]
  · intro h1 h2 h3 h4
    simp [processFile, h1, h2, h3, h4]

theorem C7_error_containment_witness :
    processFile "2024-01-01" "scan.bmp" (PdfOutcome.ok "x") (ImageOutcome.ok (errorResult "y")) =
      errorResult "Unsupported file type: bmp" ∧
    processFile "2024-01-01" "card.PDF" (PdfOutcome.err "read failed") (ImageOutcome.ok (errorResult "y")) =
      errorResult "read failed" := by
  constructor
  · have h := (C7_error_containment "2024-01-01" "scan.bmp" (PdfOutcome.ok "x")
      (ImageOutcome.ok (errorResult "y")) "read failed").2.2
      (by decide) (by decide) (by decide) (by decide)
    simpa using h
  · exact (C7_error_containment "2024-01-01" "card.PDF" (PdfOutcome.err "read failed")
      (ImageOutcome.ok (errorResult "y")) "read failed").1 (by decide) rfl

/-- C10: the race-boundary test is an unanchored substring match with an
optional ordinal suffix: the line `TERRACE 2` (not a race header, but
containing `RACE 2`) opens race 2 and collects the following entry, and a
line containing `7 RACE` opens race 7. -/
theorem C10_unanchored_boundary :
    findRaceHeader "TERRACE 2".data = some 2 ∧
      (extractRaces "2024-01-01" "TERRACE 2\n1. HIDDEN GEM").map
          (fun r => (r.number, r.horses.map Horse.name)) = [(2, ["HIDDEN GEM"])] ∧
      findRaceHeader "7 RACE".data = some 7 ∧
      (extractRaces "2024-01-01" "7 RACE\n1. HIDDEN GEM").map
          (fun r => (r.number, r.horses.map Horse.name)) = [(7, ["HIDDEN GEM"])] := by
  refine ⟨by decide, by decide, by decide, by decide⟩

/-- C8: a horse built from a matched line that contains no parenthesized
jockey group and no odds token (no `(`, `-` or `/` character, so neither
optional group of the pattern can capture) has jockey `"Unknown"`, trainer
`"Unknown"`, weight 120, and no odds. -/
theorem C8_field_defaults (line : List Char) (h : Horse)
    (hm : extractHorseFromLine line = some h)
    (hp : '(' ∉ line) (hd : '-' ∉ line) (hs : '/' ∉ line) :
    h.jockey = "Unknown" ∧ h.trainer = "Unknown" ∧ h.weight = 120 ∧
      h.odds = none := by
  rw [extractHorseFromLine] at hm
  split at hm
  · exact absurd hm (by simp)
  · rename_i ds nm j o hmc
    rcases horseMatch_captures hmc hp hd hs with ⟨hj, ho⟩
    subst hj; subst ho
    injection hm with hm
    subst hm
    exact ⟨rfl, rfl, rfl, rfl⟩

theorem C8_field_defaults_witness :
    ({ id := "horse-3", number := 3, name := "SEA BISCUIT",
       jockey := "Unknown", trainer := "Unknown", weight := 120,
       odds := none } : Horse).jockey = "Unknown" ∧
      ({ id := "horse-3", number := 3, name := "SEA BISCUIT",
         jockey := "Unknown", trainer := "Unknown", weight := 120,
         odds := none } : Horse).odds = none := by
  have h := C8_field_defaults "3. SEA BISCUIT".data
    { id := "horse-3", number := 3, name := "SEA BISCUIT",
      jockey := "Unknown", trainer := "Unknown", weight := 120, odds := none }
    (by decide) (by decide) (by decide) (by decide)
  exact ⟨h.1, h.2.2.2⟩

/-! ## The race-assembler loop: provenance of emitted races (for C4, C9) -/

theorem mem_racesLoop {today : String} :
    ∀ (lines : List (List Char)) (cur : Option RaceDraft) (hs : List Horse)
      (acc : List Race) (r : Race), r ∈ racesLoop today lines cur hs acc →
      r ∈ acc ∨ (r.horses ≠ [] ∧
        ∀ h ∈ r.horses, h ∈ hs ∨ ∃ l, extractHorseFromLine l = some h) := by
  intro lines
  induction lines with
  | nil =>
    intro cur hs acc r hr
    simp only [racesLoop] at hr
    rcases List.mem_append.mp hr with h | h
    · exact Or.inl h
    · right
      cases cur with
      | none => exact absurd h (by simp [flushDraft])
      | some d =>
        rw [flushDraft] at h
        split at h
        · exact absurd h (by simp)
        · rename_i hne
          have : r = mkRace d hs := by simpa using h
          subst this
          refine ⟨by simpa [mkRace, List.isEmpty_iff] using hne, ?_⟩
          intro hh hmem
          exact Or.inl hmem
  | cons l rest ih =>
    intro cur hs acc r hr
    simp only [racesLoop] at hr
    revert hr
    split
    · rename_i n hn
      intro hr
      rcases ih _ _ _ _ hr with h | ⟨hne, hprov⟩
      · rcases List.mem_append.mp h with h | h
        · exact Or.inl h
        · right
          cases cur with
          | none => exact absurd h (by simp [flushDraft])
          | some d =>
            rw [flushDraft] at h
            split at h
            · exact absurd h (by simp)
            · rename_i hne
              have : r = mkRace d hs := by simpa using h
              subst this
              refine ⟨by simpa [mkRace, List.isEmpty_iff] using hne, ?_⟩
              intro hh hmem
              exact Or.inl hmem
      · right
        refine ⟨hne, ?_⟩
        intro hh hmem
        rcases hprov hh hmem with h | h
        · exact absurd h (List.not_mem_nil hh)
        · exact Or.inr h
    · cases cur with
      | some d =>
        cases hh0 : extractHorseFromLine l with
        | some h0 =>
          intro hr
          dsimp only at hr
          rcases ih _ _ _ _ hr with h | ⟨hne, hprov⟩
          · exact Or.inl h
          · right
            refine ⟨hne, ?_⟩
            intro hh hmem
            rcases hprov hh hmem with h | h
            · rcases List.mem_append.mp h with h | h
              · exact Or.inl h
              · refine Or.inr ⟨l, ?_⟩
                rw [hh0]
                simp only [List.mem_singleton] at h
                rw [h]
            · exact Or.inr h
        | none =>
          intro hr
          dsimp only at hr
          rcases ih _ _ _ _ hr with h | ⟨hne, hprov⟩
          · exact Or.inl h
          · exact Or.inr ⟨hne, hprov⟩
      | none =>
        intro hr
        rcases ih _ _ _ _ hr with h | ⟨hne, hprov⟩
        · exact Or.inl h
        · exact Or.inr ⟨hne, hprov⟩

/-- C4: every race emitted by the extraction loop contains at least one
horse — an empty draft (boundary marker immediately followed by another, or
an open race with no horses at end of input) is discarded, never appended. -/
theorem C4_races_have_horses (today : String) (text : String) (r : Race)
    (hr : r ∈ extractRaces today text) : r.horses ≠ [] := by
  rcases mem_racesLoop (normalizeLines text.data) none [] [] r hr with h | ⟨hne, _⟩
  · exact absurd h (List.not_mem_nil r)
  · exact hne

theorem C4_races_have_horses_witness :
    ({ id := "race-1", number := 1, track := "Unknown", date := "2024-01-01",
       distance := none, surface := none, purse := none,
       horses := [{ id := "horse-1", number := 1, name := "A",
                    jockey := "Unknown", trainer := "Unknown", weight := 120,
                    odds := none }] } : Race).horses ≠ [] := by
  exact C4_races_have_horses "2024-01-01" "RACE 1\n1. A\nRACE 2\nRACE 3" _ (by decide)

/-- C9 counterexample: the line `99. BIG HORSE` inside a race produces a
HorseDraft with number 99, outside the claimed range 1–20 (the pattern
accepts any 1–2 digit number). -/
theorem C9_counterexample :
    (extractRaces "2024-01-01" "RACE 1\n99. BIG HORSE").map
        (fun r => r.horses.map Horse.number) = [[99]] ∧ ¬(99 : Nat) ≤ 20 := by
  exact ⟨by decide, by decide⟩

/-- C9 (amended): every HorseDraft produced by the extraction pipeline has a
`number` between 0 and 99 inclusive (`parseInt` of the 1–2 digit capture of
the horse-entry pattern; 0 and numbers above 20 are not excluded). -/
theorem C9_number_range (today : String) (text : String) (r : Race) (h : Horse)
    (hr : r ∈ extractRaces today text) (hh : h ∈ r.horses) : h.number ≤ 99 := by
  rcases mem_racesLoop (normalizeLines text.data) none [] [] r hr with hmem | ⟨_, hprov⟩
  · exact absurd hmem (List.not_mem_nil r)
  · rcases hprov h hh with hmem | ⟨l, hl⟩
    · exact absurd hmem (List.not_mem_nil h)
    · exact extractHorse_number_le hl

theorem C9_number_range_witness :
    ({ id := "horse-99", number := 99, name := "BIG HORSE",
       jockey := "Unknown", trainer := "Unknown", weight := 120,
       odds := none } : Horse).number ≤ 99 := by
  exact C9_number_range "2024-01-01" "RACE 1\n99. BIG HORSE"
    { id := "race-1", number := 1, track := "Unknown", date := "2024-01-01",
      distance := none, surface := none, purse := none,
      horses := [{ id := "horse-99", number := 99, name := "BIG HORSE",
                   jockey := "Unknown", trainer := "Unknown", weight := 120,
                   odds := none }] }
    { id := "horse-99", number := 99, name := "BIG HORSE",
      jockey := "Unknown", trainer := "Unknown", weight := 120, odds := none }
    (by decide) (by decide)

/-- C5: any block of lines in which no line passes the race-boundary test,
placed before the rest of the document, leaves the extraction loop's output
unchanged when no race is open — in particular a horse-entry-shaped line
before the first race-boundary marker contributes no horse to any race
(`extractRaces today text = racesLoop today (normalizeLines text.data) none
[] []`). -/
theorem C5_orphan_lines_dropped (today : String) (pre rest : List (List Char))
    (hpre : ∀ l ∈ pre, findRaceHeader l = none) :
    racesLoop today (pre ++ rest) none [] [] =
      racesLoop today rest none [] [] := by
  induction pre with
  | nil => rfl
  | cons l pre ih =>
    have hl : findRaceHeader l = none := hpre l (List.mem_cons_self l pre)
    simp only [List.cons_append, racesLoop, hl]
    exact ih fun l' hl' => hpre l' (List.mem_cons_of_mem l hl')

theorem C5_orphan_lines_dropped_witness :
    extractHorseFromLine "1. ORPHAN HORSE".data ≠ none ∧
      racesLoop "2024-01-01"
          (["1. ORPHAN HORSE".data] ++ ["RACE 1".data, "2. B".data]) none [] [] =
        racesLoop "2024-01-01" ["RACE 1".data, "2. B".data] none [] [] := by
  refine ⟨by decide, ?_⟩
  exact C5_orphan_lines_dropped "2024-01-01" ["1. ORPHAN HORSE".data]
    ["RACE 1".data, "2. B".data] (by decide)

/-! ## Race numbers: order preservation (for C3) -/

/-- The race numbers of the boundary markers of the document, in document
order. -/
def headerNumbers (text : String) : List Nat :=
  (normalizeLines text.data).filterMap findRaceHeader

/-- The number of the open draft, as a (0- or 1-element) list. -/
def optDraftNums : Option RaceDraft → List Nat
  | some d => [d.number]
  | none => []

theorem applyDistance_number (d : RaceDraft) (l : List Char) :
    (applyDistance d l).number = d.number := by
  rw [applyDistance]; split <;> rfl

theorem applySurface_number (d : RaceDraft) (l : List Char) :
    (applySurface d l).number = d.number := by
  rw [applySurface]; split <;> rfl

theorem applyPurse_number (d : RaceDraft) (l : List Char) :
    (applyPurse d l).number = d.number := by
  rw [applyPurse]; split <;> rfl

theorem applyLine_number (d : RaceDraft) (l : List Char) :
    (applyLine d l).number = d.number := by
  rw [applyLine, applyPurse_number, applySurface_number, applyDistance_number]

theorem applyLookahead_number (ls : List (List Char)) :
    ∀ d : RaceDraft, (applyLookahead d ls).number = d.number := by
  induction ls with
  | nil => intro d; rfl
  | cons l ls ih =>
    intro d
    have hstep : applyLookahead d (l :: ls) = applyLookahead (applyLine d l) ls := rfl
    rw [hstep, ih, applyLine_number]

theorem flushDraft_numbers (cur : Option RaceDraft) (hs : List Horse) :
    ((flushDraft cur hs).map Race.number).Sublist (optDraftNums cur) := by
  cases cur with
  | none => simp [flushDraft, optDraftNums]
  | some d =>
    rw [flushDraft, optDraftNums]
    split
    · simp
    · simp [mkRace]

theorem racesLoop_numbers (today : String) :
    ∀ (lines : List (List Char)) (cur : Option RaceDraft) (hs : List Horse)
      (acc : List Race),
      ((racesLoop today lines cur hs acc).map Race.number).Sublist
        (acc.map Race.number ++ (optDraftNums cur ++ lines.filterMap findRaceHeader)) := by
  intro lines
  induction lines with
  | nil =>
    intro cur hs acc
    simp only [racesLoop, List.filterMap_nil, List.append_nil, List.map_append]
    exact (flushDraft_numbers cur hs).append_left _
  | cons l rest ih =>
    intro cur hs acc
    simp only [racesLoop]
    cases hl : findRaceHeader l with
    | some n =>
      dsimp only
      have h1 := ih (some (applyLookahead (initialDraft n today) (rest.take 4)))
        [] (acc ++ flushDraft cur hs)
      simp only [List.filterMap_cons, hl]
      refine h1.trans ?_
      have hnum : optDraftNums
          (some (applyLookahead (initialDraft n today) (rest.take 4))) = [n] := by
        rw [optDraftNums, applyLookahead_number]
        rfl
      rw [hnum, List.map_append, List.append_assoc]
      refine List.Sublist.append_left ?_ _
      rw [List.singleton_append]
      exact (flushDraft_numbers cur hs).append (List.Sublist.refl _)
    | none =>
      simp only [List.filterMap_cons, hl]
      cases cur with
      | some d =>
        cases hh0 : extractHorseFromLine l with
        | some h0 => exact ih (some d) (hs ++ [h0]) acc
        | none => exact ih (some d) hs acc
      | none => exact ih none hs acc

/-- C3 counterexample: a document whose boundary markers repeat a race
number yields output `number`s [2, 2] — neither unique nor strictly
increasing. -/
theorem C3_counterexample :
    (extractRaces "2024-01-01" "RACE 2\n1. A\nRACE 2\n1. B").map Race.number
        = [2, 2] ∧
      ¬ List.Pairwise (· < ·)
          ((extractRaces "2024-01-01" "RACE 2\n1. A\nRACE 2\n1. B").map Race.number) ∧
      ¬ ((extractRaces "2024-01-01" "RACE 2\n1. A\nRACE 2\n1. B").map Race.number).Nodup := by
  refine ⟨by decide, by decide, by decide⟩

/-- C3 (amended): the `number`s of the output races form a subsequence of
the boundary-marker numbers in document order (order of appearance is
preserved, numbers are never renumbered); consequently, whenever the
document's marker numbers are strictly increasing, the output `number`s are
strictly increasing and unique.  (Unconditional uniqueness/monotonicity
fails: the numbers are copied from the document, see the counterexample.) -/
theorem C3_order_preservation (today : String) (text : String) :
    ((extractRaces today text).map Race.number).Sublist (headerNumbers text) ∧
      (List.Pairwise (· < ·) (headerNumbers text) →
        List.Pairwise (· < ·) ((extractRaces today text).map Race.number) ∧
          ((extractRaces today text).map Race.number).Nodup) := by
  have h := racesLoop_numbers today (normalizeLines text.data) none [] []
  simp only [optDraftNums, List.map_nil, List.nil_append] at h
  refine ⟨h, fun hp => ?_⟩
  have hp2 := hp.sublist h
  exact ⟨hp2, hp2.imp fun hab => Nat.ne_of_lt hab⟩

theorem C3_order_preservation_witness :
    List.Pairwise (· < ·) (headerNumbers "RACE 1\n1. A\nRACE 3\n2. B") ∧
      List.Pairwise (· < ·)
        ((extractRaces "2024-01-01" "RACE 1\n1. A\nRACE 3\n2. B").map Race.number) ∧
      ((extractRaces "2024-01-01" "RACE 1\n1. A\nRACE 3\n2. B").map Race.number).Nodup := by
  have h := (C3_order_preservation "2024-01-01" "RACE 1\n1. A\nRACE 3\n2. B").2
    (by decide)
  exact ⟨by decide, h.1, h.2⟩

/-! ## C1: the end-to-end example -/

/-- C1: full evaluation of `parseRaceData` on the spec's seven-line example.
The pipeline yields exactly one race (race 2 is absent), number 1, with the
two horses as claimed, card-level track `SANTA ANITA` and date `2024-03-15`,
distance `6 Furlongs` and surface dirt — but its `purse` is ABSENT, not
40000: on the conditions line the unanchored purse pattern `/\$?([\d,]+)/`
matches the leading `6` of `6 Furlongs`, whose value 6 fails the `> 1000`
test, so `extractPurse` returns null for every line in the lookahead window
(the final conjunct).  The race-level `track`/`date` fields are the loop's
defaults (`Unknown`/today); the extracted track and date sit on the card. -/
theorem C1_end_to_end (today : String) :
    parseRaceData today
        "SANTA ANITA\nMarch 15, 2024\nRACE 1\n6 Furlongs Dirt Purse $40,000\n1. MIDNIGHT RUN (J. Smith) 5-1\n2. SOLAR FLARE (A. Lee) 3-1\nRACE 2" =
      { track := "SANTA ANITA", date := "2024-03-15",
        races := [{ id := "race-1", number := 1, track := "Unknown",
                    date := today, distance := some "6 Furlongs",
                    surface := some Surface.dirt, purse := none,
                    horses := [{ id := "horse-1", number := 1,
                                 name := "MIDNIGHT RUN", jockey := "J. Smith",
                                 trainer := "Unknown", weight := 120,
                                 odds := some "5-1" },
                               { id := "horse-2", number := 2,
                                 name := "SOLAR FLARE", jockey := "A. Lee",
                                 trainer := "Unknown", weight := 120,
                                 odds := some "3-1" }] }] } ∧
      extractPurse "6 Furlongs Dirt Purse $40,000".data = none ∧
      purseAmount "6 Furlongs Dirt Purse $40,000".data = some 6 := by
  refine ⟨rfl, by decide, by decide⟩

end Railbird
